import Mathlib

set_option linter.unusedVariables false

/-!
Shallow embedding of `src/hdp_dbm/rbm_units.py`.

Tensors (one row along the unit axis) are modelled as lists over a linear
ordered field: `ℚ` instantiates the order-based sampling operations for
executable witnesses, `ℝ` is used for the activation formulas that need
`Real.exp`.  Randomness is modelled by passing the random draw (the output
of `tf.random_uniform`, `rng.rand`, `tf.random_normal`, …) as an explicit
argument.  A Python method whose body can `raise` is embedded as an
`Except PyError` value; Python's `None` is `Option.none`.
-/

/-- The one exception class raised in the module (`raise NotImplementedError`). -/
inductive PyError : Type
| notImplementedError

/-- `tf.float32` / `tf.float64`, the dtype stored in `self.tf_dtype`. -/
inductive TfDType : Type
| float32
| float64

/-- Embedding of `tf.nn.sigmoid` on one scalar: `1 / (1 + exp(-t))`. -/
noncomputable def tf_sigmoid (t : ℝ) : ℝ := 1 / (1 + Real.exp (-t))

/-- Embedding of `tf.nn.softmax` along the last axis on one row:
entry `i` is `exp (x i)` divided by the sum of `exp` over the row. -/
noncomputable def tf_softmax (x : List ℝ) : List ℝ :=
  x.map (fun xi => Real.exp xi / (x.map Real.exp).sum)

/-- Helper for `tf.cumsum`: running sums of `l` starting from accumulator `acc`. -/
def cumsumFrom {α : Type} [LinearOrderedField α] (acc : α) : List α → List α
  | [] => []
  | x :: xs => (acc + x) :: cumsumFrom (acc + x) xs

/-- Embedding of `tf.cumsum(means, axis=-1)` (inclusive cumulative sum of one row). -/
def tf_cumsum {α : Type} [LinearOrderedField α] (l : List α) : List α := cumsumFrom 0 l

/-- Helper for `tf.argmax`: scans the rest of the list keeping the index `best`
of the first occurrence of the running maximum `m`; `i` is the index of the
head of `xs` in the whole list. -/
def argmaxAux : List ℤ → ℕ → ℤ → ℕ → ℕ
  | [], _, _, best => best
  | x :: xs, i, m, best =>
      if m < x then argmaxAux xs (i + 1) x i else argmaxAux xs (i + 1) m best

/-- Embedding of `tf.argmax(t, axis=-1)` on one row of integers: the index of
the first occurrence of the maximum (`tf.argmax` returns the smallest index in
case of ties). -/
def tf_argmax : List ℤ → ℕ
  | [] => 0
  | x :: xs => argmaxAux xs 1 x 0

/-- Embedding of the `tf.scatter_nd` call in `MultinomialLayer.sample` for one
row: a row of length `n` holding `1` at index `i` and `0` elsewhere. -/
def oneHot {α : Type} [LinearOrderedField α] (n i : ℕ) : List α :=
  (List.range n).map (fun j => if j = i then 1 else 0)

/-! ### `BaseLayer` -/

/-- `BaseLayer.init`: `raise NotImplementedError`. -/
def BaseLayer.init (random_seed : Option ℕ) : Except PyError (List ℝ) :=
  Except.error PyError.notImplementedError

/-- `BaseLayer.activation`: `raise NotImplementedError`. -/
def BaseLayer.activation (x b : List ℝ) : Except PyError (List ℝ) :=
  Except.error PyError.notImplementedError

/-- `BaseLayer.make_rand`: body is `pass`, so the call returns `None`. -/
def BaseLayer.make_rand (batch_size : ℕ) : Option (List (List ℝ)) := none

/-- `BaseLayer.sample`: body is `pass`, so the call returns `None`. -/
def BaseLayer.sample (rand_data means : List ℝ) : Option (List ℝ) := none

/-! ### `BernoulliLayer` -/

/-- `BernoulliLayer.init`: returns the `tf.random_uniform((n_units,), 0, 1)`
draw itself; the draw is the explicit argument `u`. -/
def BernoulliLayer.init (u : List ℝ) : List ℝ := u

/-- `BernoulliLayer.activation`: `tf.nn.sigmoid(x)` (the bias `b` is unused). -/
noncomputable def BernoulliLayer.activation (x b : List ℝ) : List ℝ :=
  x.map tf_sigmoid

/-- `BernoulliLayer.make_rand`: returns `rng.rand(batch_size, n_units)`; the
draw is the explicit argument. -/
def BernoulliLayer.make_rand (draw : List (List ℝ)) : List (List ℝ) := draw

/-- `BernoulliLayer.sample`: `tf.cast(tf.less(rand_data, means), dtype)`,
elementwise `1` where `rand_data < means` and `0` elsewhere. -/
def BernoulliLayer.sample {α : Type} [LinearOrderedField α]
    (rand_data means : List α) : List α :=
  List.zipWith (fun r m => if r < m then (1 : α) else 0) rand_data means

/-! ### `MultinomialLayer` -/

/-- `MultinomialLayer.init`: draws `t = tf.random_uniform((n_units,), 0, 1)`
(the explicit argument `u`) and divides it by `tf.reduce_sum(t)`. -/
def MultinomialLayer.init {α : Type} [LinearOrderedField α] (u : List α) : List α :=
  u.map (fun t => t / u.sum)

/-- `MultinomialLayer.activation`: `tf.nn.softmax(x)` (the bias `b` is unused). -/
noncomputable def MultinomialLayer.activation (x b : List ℝ) : List ℝ :=
  tf_softmax x

/-- `MultinomialLayer.make_rand`: returns `rng.rand(batch_size, 1)`, one scalar
per batch row; the draw is the explicit argument. -/
def MultinomialLayer.make_rand (draw : List ℝ) : List ℝ := draw

/-- `MultinomialLayer.sample` on one batch row (`rand_data` is the row's
scalar): `cumprobs = tf.cumsum(means, -1)`;
`t = to_int32(cumprobs >= rand_data)`; `ind = to_int32(argmax(t, -1))`;
`scatter_nd` writes a `1` at column `ind` of a zero row of the shape of
`cumprobs`, which `tf.cast` converts to the dtype. -/
def MultinomialLayer.sample {α : Type} [LinearOrderedField α]
    (rand_data : α) (means : List α) : List α :=
  let cumprobs := tf_cumsum means
  let t := cumprobs.map (fun c => if rand_data ≤ c then (1 : ℤ) else 0)
  let ind := tf_argmax t
  oneHot cumprobs.length ind

/-! ### `GaussianLayer` -/

/-- `GaussianLayer.init`: draws `t = tf.random_normal((n_units,))` (the
explicit argument `z`) and multiplies it by `self.sigma`. -/
def GaussianLayer.init {α : Type} [LinearOrderedField α] (sigma : α) (z : List α) : List α :=
  z.map (fun t => t * sigma)

/-- `GaussianLayer.activation`: `x * sigma + b * (1 - sigma)`, elementwise
over the row `x` and the broadcast bias row `b`, with scalar `sigma`. -/
def GaussianLayer.activation {α : Type} [LinearOrderedField α]
    (sigma : α) (x b : List α) : List α :=
  List.zipWith (fun xi bi => xi * sigma + bi * (1 - sigma)) x b

/-- `GaussianLayer.make_rand`: returns `rng.randn(batch_size, n_units)`; the
draw is the explicit argument. -/
def GaussianLayer.make_rand (draw : List (List ℝ)) : List (List ℝ) := draw

/-- `GaussianLayer` defines no `sample` method, so the inherited
`BaseLayer.sample` is called. -/
def GaussianLayer.sample (rand_data means : List ℝ) : Option (List ℝ) :=
  BaseLayer.sample rand_data means

/-! ### The `sample` surface seen by a caller (Python: array or `None`) -/

/-- `BernoulliLayer.sample` as seen by a caller: it returns a value
(never `None`). -/
noncomputable def BernoulliLayer.sampleO (rand_data means : List ℝ) : Option (List ℝ) :=
  some (BernoulliLayer.sample rand_data means)

/-- `MultinomialLayer.sample` as seen by a caller: it returns a value
(never `None`). -/
noncomputable def MultinomialLayer.sampleO (rand_data : ℝ) (means : List ℝ) : Option (List ℝ) :=
  some (MultinomialLayer.sample rand_data means)

/-! ### Raise behaviour: every method as an `Except PyError` computation.

A Python body with no `raise` statement is embedded as `Except.ok` of its
value; the two `raise NotImplementedError` bodies are `Except.error`. -/

/-- A call that completes without raising an exception. -/
def raisesNoError {β : Type} (r : Except PyError β) : Prop :=
  ∃ v, r = Except.ok v

def BaseLayer.make_randE (batch_size : ℕ) : Except PyError (Option (List (List ℝ))) :=
  Except.ok (BaseLayer.make_rand batch_size)

def BaseLayer.sampleE (rand_data means : List ℝ) : Except PyError (Option (List ℝ)) :=
  Except.ok (BaseLayer.sample rand_data means)

def BernoulliLayer.initE (u : List ℝ) : Except PyError (List ℝ) :=
  Except.ok (BernoulliLayer.init u)

noncomputable def BernoulliLayer.activationE (x b : List ℝ) : Except PyError (List ℝ) :=
  Except.ok (BernoulliLayer.activation x b)

def BernoulliLayer.make_randE (draw : List (List ℝ)) : Except PyError (List (List ℝ)) :=
  Except.ok (BernoulliLayer.make_rand draw)

noncomputable def BernoulliLayer.sampleE (rand_data means : List ℝ) : Except PyError (List ℝ) :=
  Except.ok (BernoulliLayer.sample rand_data means)

noncomputable def MultinomialLayer.initE (u : List ℝ) : Except PyError (List ℝ) :=
  Except.ok (MultinomialLayer.init u)

noncomputable def MultinomialLayer.activationE (x b : List ℝ) : Except PyError (List ℝ) :=
  Except.ok (MultinomialLayer.activation x b)

def MultinomialLayer.make_randE (draw : List ℝ) : Except PyError (List ℝ) :=
  Except.ok (MultinomialLayer.make_rand draw)

noncomputable def MultinomialLayer.sampleE (rand_data : ℝ) (means : List ℝ) :
    Except PyError (List ℝ) :=
  Except.ok (MultinomialLayer.sample rand_data means)

noncomputable def GaussianLayer.initE (sigma : ℝ) (z : List ℝ) : Except PyError (List ℝ) :=
  Except.ok (GaussianLayer.init sigma z)

noncomputable def GaussianLayer.activationE (sigma : ℝ) (x b : List ℝ) :
    Except PyError (List ℝ) :=
  Except.ok (GaussianLayer.activation sigma x b)

def GaussianLayer.make_randE (draw : List (List ℝ)) : Except PyError (List (List ℝ)) :=
  Except.ok (GaussianLayer.make_rand draw)

def GaussianLayer.sampleE (rand_data means : List ℝ) : Except PyError (Option (List ℝ)) :=
  Except.ok (GaussianLayer.sample rand_data means)

/-! ### Object surface: methods as state transformers on the layer object.

Each Python method receives `self` and may in principle mutate it; the
embedding returns the method's result together with the `self` after the
call.  No method body in the module assigns to a field of `self`, so each
embedded method returns its receiver unchanged. -/

/-- Fields of a `BernoulliLayer` instance (set in `BaseLayer.__init__`). -/
structure BernoulliLayerObj : Type where
  n_units : ℕ
  tf_dtype : TfDType

/-- Fields of a `MultinomialLayer` instance (set in `BaseLayer.__init__`). -/
structure MultinomialLayerObj : Type where
  n_units : ℕ
  tf_dtype : TfDType

/-- Fields of a `GaussianLayer` instance (`sigma` is set in
`GaussianLayer.__init__`, the rest in `BaseLayer.__init__`). -/
structure GaussianLayerObj : Type where
  n_units : ℕ
  tf_dtype : TfDType
  sigma : ℝ

def BernoulliLayer.initM (L : BernoulliLayerObj) (u : List ℝ) :
    List ℝ × BernoulliLayerObj :=
  (BernoulliLayer.init u, L)

noncomputable def BernoulliLayer.activationM (L : BernoulliLayerObj) (x b : List ℝ) :
    List ℝ × BernoulliLayerObj :=
  (BernoulliLayer.activation x b, L)

def BernoulliLayer.make_randM (L : BernoulliLayerObj) (batch_size : ℕ)
    (draw : List (List ℝ)) : List (List ℝ) × BernoulliLayerObj :=
  (BernoulliLayer.make_rand draw, L)

noncomputable def BernoulliLayer.sampleM (L : BernoulliLayerObj) (rand_data means : List ℝ) :
    List ℝ × BernoulliLayerObj :=
  (BernoulliLayer.sample rand_data means, L)

noncomputable def MultinomialLayer.initM (L : MultinomialLayerObj) (u : List ℝ) :
    List ℝ × MultinomialLayerObj :=
  (MultinomialLayer.init u, L)

noncomputable def MultinomialLayer.activationM (L : MultinomialLayerObj) (x b : List ℝ) :
    List ℝ × MultinomialLayerObj :=
  (MultinomialLayer.activation x b, L)

def MultinomialLayer.make_randM (L : MultinomialLayerObj) (batch_size : ℕ)
    (draw : List ℝ) : List ℝ × MultinomialLayerObj :=
  (MultinomialLayer.make_rand draw, L)

noncomputable def MultinomialLayer.sampleM (L : MultinomialLayerObj) (rand_data : ℝ)
    (means : List ℝ) : List ℝ × MultinomialLayerObj :=
  (MultinomialLayer.sample rand_data means, L)

noncomputable def GaussianLayer.initM (L : GaussianLayerObj) (z : List ℝ) :
    List ℝ × GaussianLayerObj :=
  (GaussianLayer.init L.sigma z, L)

noncomputable def GaussianLayer.activationM (L : GaussianLayerObj) (x b : List ℝ) :
    List ℝ × GaussianLayerObj :=
  (GaussianLayer.activation L.sigma x b, L)

def GaussianLayer.make_randM (L : GaussianLayerObj) (batch_size : ℕ)
    (draw : List (List ℝ)) : List (List ℝ) × GaussianLayerObj :=
  (GaussianLayer.make_rand draw, L)

def GaussianLayer.sampleM (L : GaussianLayerObj) (rand_data means : List ℝ) :
    Option (List ℝ) × GaussianLayerObj :=
  (GaussianLayer.sample rand_data means, L)

/-! ## Claims -/

/-- C3: `BernoulliLayer.activation(x, b)` is the elementwise logistic sigmoid
of `x`, i.e. `1 / (1 + exp (-x))`. -/
theorem bernoulli_activation_is_sigmoid (x b : List ℝ) :
    BernoulliLayer.activation x b = x.map (fun t => 1 / (1 + Real.exp (-t))) := rfl

/-- C10: `BernoulliLayer.activation` and `MultinomialLayer.activation` do not
depend on the bias argument; `GaussianLayer.activation` does (witnessed at
`sigma = 0`). -/
theorem activation_bias_independence :
    (∀ x b1 b2 : List ℝ, BernoulliLayer.activation x b1 = BernoulliLayer.activation x b2) ∧
    (∀ x b1 b2 : List ℝ, MultinomialLayer.activation x b1 = MultinomialLayer.activation x b2) ∧
    (∃ (sigma : ℝ) (x b1 b2 : List ℝ),
      GaussianLayer.activation sigma x b1 ≠ GaussianLayer.activation sigma x b2) := by
  refine ⟨fun _ _ _ => rfl, fun _ _ _ => rfl, 0, [0], [0], [1], ?_⟩
  simp [GaussianLayer.activation]

/-- C1: `BernoulliLayer.sample` and `MultinomialLayer.sample` return a
concrete sample for every input, but `GaussianLayer` inherits
`BaseLayer.sample`, whose body is `pass`, so `GaussianLayer.sample` returns
`None` for every input rather than a continuous sample. -/
theorem gaussian_sample_returns_none :
    (∀ rand_data means : List ℝ, (BernoulliLayer.sampleO rand_data means).isSome = true) ∧
    (∀ (rand_data : ℝ) (means : List ℝ),
      (MultinomialLayer.sampleO rand_data means).isSome = true) ∧
    (∀ rand_data means : List ℝ, GaussianLayer.sample rand_data means = none) := by
  exact ⟨fun _ _ => rfl, fun _ _ => rfl, fun _ _ => rfl⟩

/-- C6: the only raising operations in the module are the unimplemented
base-class methods `BaseLayer.init` and `BaseLayer.activation`, which raise
`NotImplementedError` on every input; every other operation of every layer
class completes without raising. -/
theorem base_methods_only_error_path :
    (∀ s, BaseLayer.init s = Except.error PyError.notImplementedError) ∧
    (∀ x b, BaseLayer.activation x b = Except.error PyError.notImplementedError) ∧
    (∀ n, raisesNoError (BaseLayer.make_randE n)) ∧
    (∀ r m, raisesNoError (BaseLayer.sampleE r m)) ∧
    (∀ u, raisesNoError (BernoulliLayer.initE u)) ∧
    (∀ x b, raisesNoError (BernoulliLayer.activationE x b)) ∧
    (∀ d, raisesNoError (BernoulliLayer.make_randE d)) ∧
    (∀ r m, raisesNoError (BernoulliLayer.sampleE r m)) ∧
    (∀ u, raisesNoError (MultinomialLayer.initE u)) ∧
    (∀ x b, raisesNoError (MultinomialLayer.activationE x b)) ∧
    (∀ d, raisesNoError (MultinomialLayer.make_randE d)) ∧
    (∀ r m, raisesNoError (MultinomialLayer.sampleE r m)) ∧
    (∀ sg z, raisesNoError (GaussianLayer.initE sg z)) ∧
    (∀ sg x b, raisesNoError (GaussianLayer.activationE sg x b)) ∧
    (∀ d, raisesNoError (GaussianLayer.make_randE d)) ∧
    (∀ r m, raisesNoError (GaussianLayer.sampleE r m)) := by
  exact ⟨fun _ => rfl, fun _ _ => rfl,
    fun _ => ⟨_, rfl⟩, fun _ _ => ⟨_, rfl⟩,
    fun _ => ⟨_, rfl⟩, fun _ _ => ⟨_, rfl⟩, fun _ => ⟨_, rfl⟩, fun _ _ => ⟨_, rfl⟩,
    fun _ => ⟨_, rfl⟩, fun _ _ => ⟨_, rfl⟩, fun _ => ⟨_, rfl⟩, fun _ _ => ⟨_, rfl⟩,
    fun _ _ => ⟨_, rfl⟩, fun _ _ _ => ⟨_, rfl⟩, fun _ => ⟨_, rfl⟩, fun _ _ => ⟨_, rfl⟩⟩

/-- C8: every method of every layer class leaves the receiver's fields
(`n_units`, `tf_dtype`, and `sigma` for `GaussianLayer`) unchanged: the
`self` returned by each embedded method equals the `self` it received. -/
theorem layer_methods_leave_fields_unchanged :
    (∀ L u, (BernoulliLayer.initM L u).2 = L) ∧
    (∀ L x b, (BernoulliLayer.activationM L x b).2 = L) ∧
    (∀ L n d, (BernoulliLayer.make_randM L n d).2 = L) ∧
    (∀ L r m, (BernoulliLayer.sampleM L r m).2 = L) ∧
    (∀ L u, (MultinomialLayer.initM L u).2 = L) ∧
    (∀ L x b, (MultinomialLayer.activationM L x b).2 = L) ∧
    (∀ L n d, (MultinomialLayer.make_randM L n d).2 = L) ∧
    (∀ L r m, (MultinomialLayer.sampleM L r m).2 = L) ∧
    (∀ L z, (GaussianLayer.initM L z).2 = L) ∧
    (∀ L x b, (GaussianLayer.activationM L x b).2 = L) ∧
    (∀ L n d, (GaussianLayer.make_randM L n d).2 = L) ∧
    (∀ L r m, (GaussianLayer.sampleM L r m).2 = L) := by
  exact ⟨fun _ _ => rfl, fun _ _ _ => rfl, fun _ _ _ => rfl, fun _ _ _ => rfl,
    fun _ _ => rfl, fun _ _ _ => rfl, fun _ _ _ => rfl, fun _ _ _ => rfl,
    fun _ _ => rfl, fun _ _ _ => rfl, fun _ _ _ => rfl, fun _ _ _ => rfl⟩

/-! ### Lemmas about the sampling primitives -/

lemma cumsumFrom_length {α : Type} [LinearOrderedField α] (l : List α) (acc : α) :
    (cumsumFrom acc l).length = l.length := by
  induction l generalizing acc with
  | nil => rfl
  | cons c cs ih => simp [cumsumFrom, ih]

lemma cumsumFrom_getD {α : Type} [LinearOrderedField α] (l : List α) :
    ∀ (acc : α) (j : ℕ), j < l.length →
      (cumsumFrom acc l).getD j 0 = acc + (l.take (j + 1)).sum := by
  induction l with
  | nil =>
    intro acc j hj
    simp at hj
  | cons c cs ih =>
    intro acc j hj
    cases j with
    | zero => simp [cumsumFrom]
    | succ j =>
      have hj' : j < cs.length := by
        simp only [List.length_cons] at hj
        omega
      simp only [cumsumFrom, List.getD_cons_succ, List.take_succ_cons, List.sum_cons]
      rw [ih (acc + c) j hj']
      ring

lemma argmaxAux_of_le (xs : List ℤ) :
    ∀ (i : ℕ) (m : ℤ) (best : ℕ), (∀ x ∈ xs, x ≤ m) → argmaxAux xs i m best = best := by
  induction xs with
  | nil => intro i m best _; rfl
  | cons x xs ih =>
    intro i m best h
    have hx : ¬ m < x := not_lt.mpr (h x (List.mem_cons_self x xs))
    simp only [argmaxAux, if_neg hx]
    exact ih (i + 1) m best (fun y hy => h y (List.mem_cons_of_mem x hy))

lemma indicator_le_one {α : Type} [LinearOrderedField α] (r : α) (l : List α) :
    ∀ y ∈ l.map (fun c => if r ≤ c then (1 : ℤ) else 0), y ≤ 1 := by
  intro y hy
  rcases List.mem_map.mp hy with ⟨c, _, rfl⟩
  split <;> decide

lemma argmaxAux_map_indicator {α : Type} [LinearOrderedField α] (r : α) (l : List α) :
    ∀ (k i best : ℕ), k < l.length → r ≤ l.getD k 0 →
      (∀ j, j < k → l.getD j 0 < r) →
      argmaxAux (l.map (fun c => if r ≤ c then (1 : ℤ) else 0)) i 0 best = i + k := by
  induction l with
  | nil =>
    intro k i best hk _ _
    simp at hk
  | cons c cs ih =>
    intro k i best hk hsat hbefore
    cases k with
    | zero =>
      have hc : r ≤ c := by simpa using hsat
      have h01 : (0 : ℤ) < 1 := by decide
      simp only [List.map_cons, if_pos hc, argmaxAux, if_pos h01]
      rw [argmaxAux_of_le (cs.map (fun c => if r ≤ c then (1 : ℤ) else 0)) (i + 1) 1 i
        (indicator_le_one r cs)]
      omega
    | succ k =>
      have hc : c < r := by
        have := hbefore 0 (Nat.succ_pos k)
        simpa using this
      have hcn : ¬ r ≤ c := not_le.mpr hc
      have h00 : ¬ (0 : ℤ) < 0 := by decide
      simp only [List.map_cons, if_neg hcn, argmaxAux, if_neg h00]
      rw [ih k (i + 1) best
        (by simp only [List.length_cons] at hk; omega)
        (by simpa using hsat)
        (fun j hj => by simpa using hbefore (j + 1) (Nat.succ_lt_succ hj))]
      omega

lemma tf_argmax_map_indicator {α : Type} [LinearOrderedField α] (r : α) (l : List α)
    (k : ℕ) (hk : k < l.length) (hsat : r ≤ l.getD k 0)
    (hbefore : ∀ j, j < k → l.getD j 0 < r) :
    tf_argmax (l.map (fun c => if r ≤ c then (1 : ℤ) else 0)) = k := by
  cases l with
  | nil => simp at hk
  | cons c cs =>
    by_cases hc : r ≤ c
    · have hk0 : k = 0 := by
        by_contra hne
        have h0 : (c :: cs).getD 0 0 < r := hbefore 0 (Nat.pos_of_ne_zero hne)
        simp only [List.getD_cons_zero] at h0
        exact absurd hc (not_le.mpr h0)
      subst hk0
      simp only [List.map_cons, if_pos hc, tf_argmax]
      exact argmaxAux_of_le _ 1 1 0 (indicator_le_one r cs)
    · cases k with
      | zero => exact absurd (by simpa using hsat) hc
      | succ k =>
        simp only [List.map_cons, if_neg hc, tf_argmax]
        rw [argmaxAux_map_indicator r cs k 1 0
          (by simp only [List.length_cons] at hk; omega)
          (by simpa using hsat)
          (fun j hj => by simpa using hbefore (j + 1) (Nat.succ_lt_succ hj))]
        omega

lemma exists_first_sat {α : Type} [LinearOrderedField α] (r : α) (l : List α)
    (hex : ∃ j, j < l.length ∧ r ≤ l.getD j 0) :
    ∃ k, k < l.length ∧ r ≤ l.getD k 0 ∧ ∀ j, j < k → l.getD j 0 < r := by
  classical
  refine ⟨Nat.find hex, (Nat.find_spec hex).1, (Nat.find_spec hex).2, ?_⟩
  intro j hj
  have hmin := Nat.find_min hex hj
  have hjlen : j < l.length := lt_trans hj (Nat.find_spec hex).1
  by_contra hnot
  exact hmin ⟨hjlen, not_lt.mp hnot⟩

lemma oneHot_getD {α : Type} [LinearOrderedField α] (n i j : ℕ) (hj : j < n) :
    ((oneHot n i : List α)).getD j 0 = if j = i then 1 else 0 := by
  have hj' : j < ((List.range n).map (fun j => if j = i then (1 : α) else 0)).length := by
    simpa using hj
  rw [oneHot, List.getD_eq_getElem _ _ hj']
  simp

/-- C2: for a row of probabilities `means` (non-negative entries summing
to `1`) and a scalar `rand_data` in `[0, 1)`, `MultinomialLayer.sample`
performs cumulative-sum inverse-CDF sampling: it returns the one-hot row
whose single `1` sits at the first index whose cumulative sum is `≥
rand_data`, and `0` everywhere else. -/
theorem multinomial_sample_inverse_cdf {α : Type} [LinearOrderedField α]
    (rand_data : α) (means : List α)
    (hprob : ∀ m ∈ means, 0 ≤ m) (hsum : means.sum = 1)
    (hr0 : 0 ≤ rand_data) (hr1 : rand_data < 1) :
    ∃ i, i < means.length ∧
      rand_data ≤ (tf_cumsum means).getD i 0 ∧
      (∀ j, j < i → (tf_cumsum means).getD j 0 < rand_data) ∧
      MultinomialLayer.sample rand_data means = oneHot means.length i ∧
      (∀ j, j < means.length →
        (MultinomialLayer.sample rand_data means).getD j 0 = if j = i then 1 else 0) := by
  have hne : means ≠ [] := by
    intro h
    rw [h] at hsum
    simp at hsum
  have hlen0 : 0 < means.length := List.length_pos.mpr hne
  have hclen : (tf_cumsum means).length = means.length := cumsumFrom_length means 0
  have hexist : ∃ j, j < (tf_cumsum means).length ∧
      rand_data ≤ (tf_cumsum means).getD j 0 := by
    refine ⟨means.length - 1, ?_, ?_⟩
    · rw [hclen]
      omega
    · simp only [tf_cumsum]
      rw [cumsumFrom_getD means 0 (means.length - 1) (by omega)]
      rw [Nat.sub_add_cancel hlen0, List.take_length, hsum, zero_add]
      exact le_of_lt hr1
  obtain ⟨k, hk, hksat, hkmin⟩ := exists_first_sat rand_data (tf_cumsum means) hexist
  rw [hclen] at hk
  have hsample : MultinomialLayer.sample rand_data means = oneHot means.length k := by
    simp only [MultinomialLayer.sample]
    rw [tf_argmax_map_indicator rand_data (tf_cumsum means) k
      (by rw [hclen]; exact hk) hksat hkmin]
    rw [hclen]
  refine ⟨k, hk, hksat, hkmin, hsample, ?_⟩
  intro j hj
  rw [hsample, oneHot_getD means.length k j hj]

/-- Witness for C2 at `rand_data = 1/2`, `means = [1/4, 1/4, 1/2]`: the
cumulative sums are `[1/4, 1/2, 1]`, the first one `≥ 1/2` is at index `1`,
so the sample is `[0, 1, 0]`. -/
theorem multinomial_sample_inverse_cdf_witness :
    MultinomialLayer.sample (1/2 : ℚ) [1/4, 1/4, 1/2] = [0, 1, 0] := by
  obtain ⟨i, hi, hsat, hmin, hs, _⟩ :=
    multinomial_sample_inverse_cdf (1/2 : ℚ) [1/4, 1/4, 1/2]
      (by norm_num [List.forall_mem_cons]) (by norm_num) (by norm_num) (by norm_num)
  have hcs : tf_cumsum ([1/4, 1/4, 1/2] : List ℚ) = [1/4, 1/2, 1] := by
    norm_num [tf_cumsum, cumsumFrom]
  rw [hcs] at hsat hmin
  have hi3 : i < 3 := by simpa using hi
  have hi1 : i = 1 := by
    interval_cases i
    · exfalso
      norm_num at hsat
    · rfl
    · exfalso
      have h1 := hmin 1 (by decide)
      norm_num at h1
  subst hi1
  rw [hs]
  norm_num [oneHot, List.range_succ]

/-! ### Lemmas for `BernoulliLayer.sample` -/

lemma bernoulli_sample_getD {α : Type} [LinearOrderedField α] :
    ∀ (l1 l2 : List α) (i : ℕ), l1.length = l2.length → i < l2.length →
      (BernoulliLayer.sample l1 l2).getD i 0 =
        if l1.getD i 0 < l2.getD i 0 then 1 else 0 := by
  intro l1
  induction l1 with
  | nil =>
    intro l2 i hlen hi
    rw [← hlen] at hi
    simp at hi
  | cons a l1 ih =>
    intro l2 i hlen hi
    cases l2 with
    | nil => simp at hi
    | cons b l2 =>
      cases i with
      | zero => simp [BernoulliLayer.sample]
      | succ i =>
        simp only [BernoulliLayer.sample, List.zipWith_cons_cons, List.getD_cons_succ]
        exact ih l2 i (by simpa using hlen) (by simpa using hi)

lemma bernoulli_sample_mem {α : Type} [LinearOrderedField α] :
    ∀ (l1 l2 : List α), ∀ y ∈ BernoulliLayer.sample l1 l2, y = 0 ∨ y = 1 := by
  intro l1
  induction l1 with
  | nil =>
    intro l2 y hy
    simp [BernoulliLayer.sample] at hy
  | cons a l1 ih =>
    intro l2 y hy
    cases l2 with
    | nil => simp [BernoulliLayer.sample] at hy
    | cons b l2 =>
      simp only [BernoulliLayer.sample, List.zipWith_cons_cons, List.mem_cons] at hy
      rcases hy with h | h
      · subst h
        by_cases hab : a < b
        · exact Or.inr (if_pos hab)
        · exact Or.inl (if_neg hab)
      · exact ih l2 y h

/-- C7: for `rand_data` and `means` of equal shape, `BernoulliLayer.sample`
returns, at every position, `1` when `rand_data` is strictly below `means`
there and `0` otherwise; every output entry is in `{0, 1}`. -/
theorem bernoulli_sample_thresholds {α : Type} [LinearOrderedField α]
    (rand_data means : List α) (hlen : rand_data.length = means.length) :
    (∀ i, i < means.length →
      (BernoulliLayer.sample rand_data means).getD i 0 =
        if rand_data.getD i 0 < means.getD i 0 then 1 else 0) ∧
    (∀ y ∈ BernoulliLayer.sample rand_data means, y = 0 ∨ y = 1) :=
  ⟨fun i hi => bernoulli_sample_getD rand_data means i hlen hi,
    bernoulli_sample_mem rand_data means⟩

/-- Witness for C7 at `rand_data = [1/2, 3/4]`, `means = [3/4, 1/2]`: the
first unit fires (`1/2 < 3/4`). -/
theorem bernoulli_sample_thresholds_witness :
    (BernoulliLayer.sample ([1/2, 3/4] : List ℚ) [3/4, 1/2]).getD 0 0 = 1 := by
  have h := (bernoulli_sample_thresholds ([1/2, 3/4] : List ℚ) [3/4, 1/2]
    (by decide)).1 0 (by decide)
  rw [h]
  norm_num

/-! ### Lemmas for `GaussianLayer.activation` -/

lemma gaussian_activation_sigma_one {α : Type} [LinearOrderedField α] :
    ∀ (x b : List α), x.length = b.length → GaussianLayer.activation 1 x b = x := by
  intro x
  induction x with
  | nil =>
    intro b _
    rfl
  | cons a x ih =>
    intro b h
    cases b with
    | nil => simp at h
    | cons c b =>
      simp only [GaussianLayer.activation, List.zipWith_cons_cons]
      have hx := ih b (by simpa using h)
      simp only [GaussianLayer.activation] at hx
      rw [hx]
      congr 1
      ring

lemma gaussian_activation_sigma_zero {α : Type} [LinearOrderedField α] :
    ∀ (x b : List α), x.length = b.length → GaussianLayer.activation 0 x b = b := by
  intro x
  induction x with
  | nil =>
    intro b h
    cases b with
    | nil => rfl
    | cons c b => simp at h
  | cons a x ih =>
    intro b h
    cases b with
    | nil => simp at h
    | cons c b =>
      simp only [GaussianLayer.activation, List.zipWith_cons_cons]
      have hx := ih b (by simpa using h)
      simp only [GaussianLayer.activation] at hx
      rw [hx]
      congr 1
      ring

/-- C5: `GaussianLayer.activation` is the elementwise linear interpolation
`x * sigma + b * (1 - sigma)`; for rows of equal shape it returns `x` at
`sigma = 1` and `b` at `sigma = 0`. -/
theorem gaussian_activation_interpolates {α : Type} [LinearOrderedField α]
    (sigma : α) (x b : List α) :
    GaussianLayer.activation sigma x b =
      List.zipWith (fun xi bi => xi * sigma + bi * (1 - sigma)) x b ∧
    (x.length = b.length →
      GaussianLayer.activation 1 x b = x ∧ GaussianLayer.activation 0 x b = b) :=
  ⟨rfl, fun h => ⟨gaussian_activation_sigma_one x b h, gaussian_activation_sigma_zero x b h⟩⟩

/-- Witness for C5 at `x = [1, 2]`, `b = [3, 4]`. -/
theorem gaussian_activation_interpolates_witness :
    GaussianLayer.activation (1 : ℚ) [1, 2] [3, 4] = [1, 2] ∧
    GaussianLayer.activation (0 : ℚ) [1, 2] [3, 4] = [3, 4] :=
  (gaussian_activation_interpolates (1/2 : ℚ) [1, 2] [3, 4]).2 (by decide)

/-! ### Lemmas for softmax and normalisation -/

lemma list_sum_map_div {α : Type} [LinearOrderedField α] (l : List α) (f : α → α) (s : α) :
    (l.map (fun t => f t / s)).sum = (l.map f).sum / s := by
  induction l with
  | nil => simp
  | cons a l ih => simp [ih, add_div]

/-- C4: `MultinomialLayer.activation` is the softmax of `x` along the last
axis: entry `i` is `exp (x i)` divided by the sum of `exp` over the row;
every output entry is non-negative, and a non-empty output row sums to `1`. -/
theorem multinomial_activation_is_softmax (x b : List ℝ) :
    MultinomialLayer.activation x b =
      x.map (fun xi => Real.exp xi / (x.map Real.exp).sum) ∧
    (∀ y ∈ MultinomialLayer.activation x b, 0 ≤ y) ∧
    (0 < x.length → (MultinomialLayer.activation x b).sum = 1) := by
  refine ⟨rfl, ?_, ?_⟩
  · intro y hy
    simp only [MultinomialLayer.activation, tf_softmax, List.mem_map] at hy
    obtain ⟨xi, _, rfl⟩ := hy
    refine div_nonneg (Real.exp_pos xi).le (List.sum_nonneg ?_)
    intro t ht
    obtain ⟨u, _, rfl⟩ := List.mem_map.mp ht
    exact (Real.exp_pos u).le
  · intro hx
    have hxne : x ≠ [] := List.length_pos.mp hx
    have hS : 0 < (x.map Real.exp).sum := by
      refine List.sum_pos _ ?_ ?_
      · intro t ht
        obtain ⟨u, _, rfl⟩ := List.mem_map.mp ht
        exact Real.exp_pos u
      · simpa using hxne
    simp only [MultinomialLayer.activation, tf_softmax]
    rw [list_sum_map_div]
    exact div_self (ne_of_gt hS)

/-- Witness for C4 at `x = [0, 0]`: softmax is `[1/2, 1/2]`, which sums
to `1`. -/
theorem multinomial_activation_is_softmax_witness :
    (MultinomialLayer.activation [0, 0] []).sum = 1 :=
  (multinomial_activation_is_softmax [0, 0] []).2.2 (by decide)

/-- C9, counterexample: the all-zero draw lies in the range `[0, 1)` of
`tf.random_uniform`, and on it `MultinomialLayer.init` divides by
`reduce_sum t = 0`, so the result is not a probability vector (its entries
sum to `0`, not `1`). -/
theorem multinomial_init_normalized_counterexample :
    MultinomialLayer.init ([0, 0] : List ℚ) = [0, 0] ∧
    ¬ (MultinomialLayer.init ([0, 0] : List ℚ)).sum = 1 := by
  norm_num [MultinomialLayer.init]

/-- C9, amended: whenever the uniform draw `u` has positive sum — which
fails only on the probability-zero event that every unit draws exactly `0`
— the vector returned by `MultinomialLayer.init` is normalized: entries
non-negative, summing to `1`. -/
theorem multinomial_init_normalized_amended {α : Type} [LinearOrderedField α]
    (u : List α) (hrange : ∀ t ∈ u, 0 ≤ t ∧ t < 1) (hpos : 0 < u.sum) :
    (∀ y ∈ MultinomialLayer.init u, 0 ≤ y) ∧ (MultinomialLayer.init u).sum = 1 := by
  constructor
  · intro y hy
    simp only [MultinomialLayer.init, List.mem_map] at hy
    obtain ⟨t, ht, rfl⟩ := hy
    exact div_nonneg (hrange t ht).1 (le_of_lt hpos)
  · simp only [MultinomialLayer.init]
    rw [list_sum_map_div]
    rw [List.map_id']
    exact div_self (ne_of_gt hpos)

/-- Witness for C9 (amended) at `u = [1/2, 1/4]`. -/
theorem multinomial_init_normalized_amended_witness :
    (MultinomialLayer.init ([1/2, 1/4] : List ℚ)).sum = 1 :=
  (multinomial_init_normalized_amended ([1/2, 1/4] : List ℚ)
    (by norm_num [List.forall_mem_cons]) (by norm_num)).2
